import Mathlib

/-!
Shallow embedding of the caddy-git-fs module (package `gitfs`): the `Repo`
snapshot manager in `module.go`, the `statFs` adapter in `fs.go`, and the
webhook `Handler` in the handler file.  Strings from the Go side are
modelled as `List Char`; the external `rsc.io/gitfs` repository client is
modelled as a record of call outcomes.
-/

namespace GitFS

/-- An opaque git content hash (`gitfs.Hash`): comparable, nothing else. -/
structure Hash where
  val : Nat
  deriving DecidableEq, Repr

/-- A fully materialized file tree (`fs.FS` returned by `Clone`): a finite
map from path to file content. -/
structure Tree where
  entries : List (List Char × List Char)
  deriving DecidableEq, Repr

/-- An error returned by the repository client or the filesystem. -/
structure Err where
  code : Nat
  deriving DecidableEq, Repr

instance {ε α : Type} [DecidableEq ε] [DecidableEq α] : DecidableEq (Except ε α) := by
  intro x y
  cases x <;> cases y
  case error.error a b =>
    exact if h : a = b then .isTrue (by rw [h]) else .isFalse (by intro hc; cases hc; exact h rfl)
  case error.ok a b => exact .isFalse (by intro hc; cases hc)
  case ok.error a b => exact .isFalse (by intro hc; cases hc)
  case ok.ok a b =>
    exact if h : a = b then .isTrue (by rw [h]) else .isFalse (by intro hc; cases hc; exact h rfl)

/-- Outcome of one round of calls into the external repository client
(`rsc.io/gitfs`): what `NewRepo`, `Clone(ref)` and `Resolve(ref)` would
return if invoked now.  The remote repository may change between rounds,
so each operation of the manager is parameterized by the client outcomes
it sees. -/
structure RepoClient where
  newRepoResult : Except Err Unit
  cloneResult : Except Err (Hash × Tree)
  resolveResult : Except Err Hash
  deriving DecidableEq, Repr

/-- Which calls an operation makes into the repository client, in order. -/
inductive GitCall where
  | clone
  | resolve
  deriving DecidableEq, Repr

/-- The mutable state of a `Repo` (module.go): configuration fields plus
the currently installed snapshot, i.e. the `hash` and `statFs` fields that
`pull` and the refresh loop overwrite.  `tree` models the `fs.FS` wrapped
inside `statFs`. -/
structure RepoState where
  url : List Char
  ref : List Char
  refreshPeriod : Int
  hash : Hash
  tree : Tree
  deriving DecidableEq, Repr

/-- `Repo.pull` (module.go): take the write lock, call `r.repo.Clone(r.Ref)`;
on error return the error with no field written; on success write `r.hash`
and `r.statFs` from the clone result.  Returns the post state, the returned
error, and the list of client calls made. -/
def RepoState.pull (c : RepoClient) (s : RepoState) :
    RepoState × Option Err × List GitCall :=
  match c.cloneResult with
  | .error e => (s, some e, [.clone])
  | .ok (h, t) => ({ s with hash := h, tree := t }, none, [.clone])

/-- The body of one `<-t.C` tick of `Repo.refresh` (module.go): call
`Resolve(r.Ref)`; on error log and `continue`; if the resolved hash equals
`r.hash` log and `continue`; otherwise call `Clone(r.Ref)`; on error log and
`continue`; on success lock and install the new hash and tree.  Returns the
post state and the client calls made. -/
def RepoState.tick (c : RepoClient) (s : RepoState) :
    RepoState × List GitCall :=
  match c.resolveResult with
  | .error _ => (s, [.resolve])
  | .ok h =>
    if h = s.hash then
      (s, [.resolve])
    else
      match c.cloneResult with
      | .error _ => (s, [.resolve, .clone])
      | .ok (hash, t) => ({ s with hash := hash, tree := t }, [.resolve, .clone])

/-- A snapshot pairing discipline: a ghost content function `hf` assigns to
every tree the hash of its content; a repository client is honest for `hf`
when any successful `Clone` returns a hash/tree pair related by `hf`. -/
def RepoClient.Honest (hf : Tree → Hash) (c : RepoClient) : Prop :=
  ∀ h t, c.cloneResult = .ok (h, t) → h = hf t

/-- The manager state serves a coherent snapshot for `hf`: the current hash
is exactly the hash of the currently served tree. -/
def RepoState.Coherent (hf : Tree → Hash) (s : RepoState) : Prop :=
  s.hash = hf s.tree

instance (hf : Tree → Hash) (c : RepoClient) : Decidable (c.Honest hf) := by
  unfold RepoClient.Honest
  match c.cloneResult with
  | .error e =>
    exact .isTrue (by intro h t hc; cases hc)
  | .ok (h0, t0) =>
    by_cases he : h0 = hf t0
    · exact .isTrue (by intro h t hc; cases hc; exact he)
    · exact .isFalse (by intro hall; exact he (hall h0 t0 rfl))

instance (hf : Tree → Hash) (s : RepoState) : Decidable (s.Coherent hf) := by
  unfold RepoState.Coherent; infer_instance

/-! ### Read path: `Repo.Open`, `Repo.Stat` (module.go) and `statFs.Stat` (fs.go) -/

/-- File metadata derived from an opened file (`f.Stat()`). -/
structure FileInfo where
  size : Nat
  deriving DecidableEq, Repr

/-- Opening a path in a materialized tree: the underlying `fs.FS.Open`,
returning the content on success and a not-found error otherwise. -/
def Tree.openPath (t : Tree) (name : List Char) : Except Err (List Char) :=
  match t.entries.lookup name with
  | some content => .ok content
  | none => .error ⟨404⟩

/-- `Repo.Open` (module.go): `RLock`; `return r.statFs.Open(name)`; `RUnlock`.
The method writes no field of the receiver; the post state is returned
explicitly alongside the result. -/
def RepoState.openFile (s : RepoState) (name : List Char) :
    RepoState × Except Err (List Char) :=
  (s, s.tree.openPath name)

/-- `Repo.Stat` (module.go): `RLock`; open via `statFs`; on error return the
error; otherwise return `f.Stat()`.  `statFs.Stat` (fs.go) has the same
open-then-stat shape.  No field of the receiver is written. -/
def RepoState.statFile (s : RepoState) (name : List Char) :
    RepoState × Except Err FileInfo :=
  match s.tree.openPath name with
  | .error e => (s, .error e)
  | .ok content => (s, .ok ⟨content.length⟩)

/-! ### Provisioning: `Repo.Provision` (module.go) -/

/-- The default reference installed by `Provision` when `Ref` is empty. -/
def headRef : List Char := "HEAD".toList

/-- The configuration fields of `Repo` before provisioning. -/
structure Config where
  url : List Char
  ref : List Char
  refreshPeriod : Int
  deriving DecidableEq, Repr

/-- Outcome of `Repo.Provision`: either a fatal error, or a ready manager
state together with whether the refresh goroutine was started. -/
inductive ProvisionResult where
  | failed (e : Err)
  | ready (s : RepoState) (refreshStarted : Bool)
  deriving DecidableEq, Repr

/-- The error `Provision` returns for an empty URL (`"'url' is empty"`). -/
def emptyUrlErr : Err := ⟨1⟩

/-- `Repo.Provision` (module.go): reject an empty URL; construct the client
(`gitfs.NewRepo`); default `Ref` to `"HEAD"` when empty; perform the initial
`Clone` and install its hash and tree; start the refresh goroutine iff
`RefreshPeriod != 0`. -/
def provision (c : RepoClient) (cfg : Config) : ProvisionResult :=
  if cfg.url = [] then .failed emptyUrlErr
  else
    match c.newRepoResult with
    | .error e => .failed e
    | .ok _ =>
      let ref := if cfg.ref = [] then headRef else cfg.ref
      match c.cloneResult with
      | .error e => .failed e
      | .ok (h, t) =>
        .ready { url := cfg.url, ref := ref, refreshPeriod := cfg.refreshPeriod,
                 hash := h, tree := t } (cfg.refreshPeriod != 0)

/-- Go's `time.NewTicker(d)` panics when `d <= 0`; the refresh goroutine
calls it first thing with the configured period. -/
def newTickerPanics (d : Int) : Prop := d ≤ 0

instance (d : Int) : Decidable (newTickerPanics d) := by
  unfold newTickerPanics; infer_instance

/-! ### The timer loop: `Repo.refresh` (module.go) -/

/-- One arrival in the `select` of the refresh loop: either the context's
`Done` channel fires, or the ticker fires, with the repository client in the
state the tick will observe. -/
inductive LoopEvent where
  | done
  | tickSig (c : RepoClient)

/-- Whether an event is the cancellation signal. -/
def LoopEvent.isDone : LoopEvent → Bool
  | .done => true
  | .tickSig _ => false

/-- The refresh loop's state: the managed repo state, whether the ticker is
still live (it is released by `t.Stop()`), and whether the loop is still
iterating (a `return` clears it). -/
structure LoopState where
  repoState : RepoState
  tickerActive : Bool
  running : Bool

/-- One iteration of the `for { select { ... } }` in `Repo.refresh`: once the
loop has returned it processes nothing; `<-r.ctx.Done()` stops the ticker and
returns; `<-t.C` runs the tick body, whose errors are logged and swallowed. -/
def loopStep (s : LoopState) (ev : LoopEvent) : LoopState :=
  if s.running then
    match ev with
    | .done => { s with running := false, tickerActive := false }
    | .tickSig c => { s with repoState := (s.repoState.tick c).1 }
  else s

/-- Running the refresh loop over a finite schedule of select arrivals. -/
def runLoop (s : LoopState) (evs : List LoopEvent) : LoopState :=
  evs.foldl loopStep s

/-! ### Lock-ordering traces of the two refresh paths (module.go) -/

/-- The atomic actions relevant to lock ordering, in source order. -/
inductive Action where
  | lockWrite
  | unlockWrite
  | callClone
  | callResolve
  | installSnapshot
  deriving DecidableEq, Repr

/-- The action trace of `Repo.pull` on its success path, read off the
source: `r.mu.Lock()` with `defer r.mu.Unlock()`, then `r.repo.Clone`,
then the assignments to `r.hash`/`r.statFs`, then return (deferred
unlock). -/
def pullTrace : List Action :=
  [.lockWrite, .callClone, .installSnapshot, .unlockWrite]

/-- The action trace of one changed-hash tick of `Repo.refresh` on its
success path: `Resolve`, `Clone`, `r.mu.Lock()`, the assignments,
`r.mu.Unlock()`. -/
def tickTrace : List Action :=
  [.callResolve, .callClone, .lockWrite, .installSnapshot, .unlockWrite]

/-- Index of the first occurrence of `a` in `l` (length of `l` if absent). -/
def firstIdx (a : Action) : List Action → Nat
  | [] => 0
  | x :: xs => if x = a then 0 else firstIdx a xs + 1

/-- The first occurrence of `a` in `l` is strictly before the first
occurrence of `b`, both occurring. -/
def firstBefore (a b : Action) (l : List Action) : Prop :=
  a ∈ l ∧ b ∈ l ∧ firstIdx a l < firstIdx b l

instance (a b : Action) (l : List Action) : Decidable (firstBefore a b l) := by
  unfold firstBefore; infer_instance

/-! ### Caddyfile unmarshalling: `Repo.UnmarshalCaddyfile` (module.go) -/

/-- `strings.Split(s, sep)` for a one-character separator: Go's `Split`
never returns an empty slice; splitting the empty string yields `[""]`. -/
def splitOnChar (sep : Char) : List Char → List (List Char)
  | [] => [[]]
  | c :: cs =>
    if c = sep then [] :: splitOnChar sep cs
    else
      match splitOnChar sep cs with
      | [] => [[c]]
      | h :: t => (c :: h) :: t

/-- `strings.TrimSuffix(s, suf)`: drop `suf` from the end when it is a
suffix, otherwise return `s` unchanged. -/
def trimSuffixL (s suf : List Char) : List Char :=
  if suf.length ≤ s.length ∧ s.drop (s.length - suf.length) = suf then
    s.take (s.length - suf.length)
  else s

/-- A parsed URL (`net/url.URL`) as the unmarshaller uses it: `pre` is
everything the `String()` rendering places before the path (scheme, host),
`path` is `u.Path`.  `render` is `u.String()`. -/
structure URLModel where
  pre : List Char
  path : List Char
  deriving DecidableEq, Repr

def URLModel.render (u : URLModel) : List Char := u.pre ++ u.path

/-- One subdirective in the Caddyfile block, with the outcome of
`caddy.ParseDuration` inlined for `refresh_period`. -/
inductive Subdirective where
  | refArg (v : List Char)
  | refreshPeriodArg (parsed : Except Err Int)
  | unknown
  deriving DecidableEq, Repr

/-- Errors of `Repo.UnmarshalCaddyfile`. -/
inductive UnmarshalErr where
  | zeroParts
  | durParseFailed (e : Err)
  | unknownSub
  deriving DecidableEq, Repr

/-- The subdirective loop of `UnmarshalCaddyfile`: `ref` overwrites `Ref`,
`refresh_period` parses a duration and overwrites `RefreshPeriod` (a parse
error aborts), an unrecognized subdirective aborts. -/
def processSubs : Config → List Subdirective → Except UnmarshalErr Config
  | r, [] => .ok r
  | r, .refArg v :: rest => processSubs { r with ref := v } rest
  | _, .refreshPeriodArg (.error e) :: _ => .error (.durParseFailed e)
  | r, .refreshPeriodArg (.ok d) :: rest =>
      processSubs { r with refreshPeriod := d } rest
  | _, .unknown :: _ => .error .unknownSub

/-- `Repo.UnmarshalCaddyfile` (module.go) after a successful `url.Parse` of
the one URL argument: split the path on `@`; with one part store the raw
argument and set `Ref` to `"HEAD"`; with two parts trim `"@"+parts[1]` off
the path and store the re-rendered URL, leaving `Ref` untouched; with three
or more parts no case of the switch matches and nothing is stored; then run
the subdirective loop. -/
def unmarshalCaddyfile (u : URLModel) (subs : List Subdirective) (r : Config) :
    Except UnmarshalErr Config :=
  match splitOnChar '@' u.path with
  | [] => .error .zeroParts
  | [_] => processSubs { r with url := u.render, ref := headRef } subs
  | [_, p1] =>
      processSubs { r with url := u.pre ++ trimSuffixL u.path ('@' :: p1) } subs
  | _ => processSubs r subs

/-- `Provision`'s defaulting of the reference (module.go lines 70-72):
an empty `Ref` becomes `"HEAD"`. -/
def effectiveRef (r : List Char) : List Char :=
  if r = [] then headRef else r

/-! ### The webhook handler: `Handler.ServeHTTP` (handler file) -/

/-- A value in Caddy's filesystem registry as the handler's type checks see
it: a gitfs `*Repo` behind an `Unwrap`, some other filesystem behind an
`Unwrap`, or a filesystem that is not unwrappable at all. -/
inductive FSValue where
  | repoFS (s : RepoState)
  | otherUnwrappable
  | plain

/-- Result of `Handler.ServeHTTP`.  The Go method returns `error`: the three
`err*` constructors are its error returns; `pulled` is the `gitfs.pull()`
call on a real `*Repo` with its state effect and returned error; `nilPanic`
is a nil-receiver `pull()` call (its first statement `r.mu.Lock()`
dereferences nil). -/
inductive ServeResult where
  | errNotFound
  | errNotUnwrappable
  | pulled (s : RepoState) (e : Option Err)
  | nilPanic

/-- `Handler.ServeHTTP`: look the filesystem up by the configured name; not
found is an error; a non-unwrappable value is an error; on an unwrappable
value the source runs `gitfs, _ := ufs.(*Repo)` and then tests `!ok` — but
`ok` is the stale boolean from the earlier registry lookup, which is `true`
here, so the not-a-Repo error return is dead code: a `*Repo` gets
`gitfs.pull()` as intended, while any other unwrapped value reaches
`gitfs.pull()` with `gitfs == nil`. -/
def serveHTTP (registry : List (List Char × FSValue)) (name : List Char)
    (c : RepoClient) : ServeResult :=
  match registry.lookup name with
  | none => .errNotFound
  | some (.repoFS s) =>
      match s.pull c with
      | (s2, e, _) => .pulled s2 e
  | some .otherUnwrappable => .nilPanic
  | some .plain => .errNotUnwrappable

/-! ### Sample values for concrete instantiations -/

/-- A small nonempty tree. -/
def sampleTree : Tree := ⟨[(['a'], ['x'])]⟩

/-- A manager state serving hash 1 over an empty tree. -/
def sampleState : RepoState := ⟨[], [], 0, ⟨1⟩, ⟨[]⟩⟩

/-- A client whose clone fails with error 9. -/
def cloneFailClient : RepoClient := ⟨.ok (), .error ⟨9⟩, .ok ⟨1⟩⟩

/-- A client whose calls all succeed, cloning `sampleTree` at hash 5. -/
def okClient : RepoClient := ⟨.ok (), .ok (⟨5⟩, sampleTree), .ok ⟨5⟩⟩

/-! ### Claim theorems -/

/-- C1: if the clone step fails during the unconditional refresh (`pull`),
the current snapshot's hash and tree are unchanged and the clone error is
returned to the caller. -/
theorem pull_failure_isolation (c : RepoClient) (s : RepoState) (e : Err)
    (h : c.cloneResult = .error e) :
    (s.pull c).1.hash = s.hash ∧ (s.pull c).1.tree = s.tree ∧
    (s.pull c).2.1 = some e := by
  simp [RepoState.pull, h]

theorem pull_failure_isolation_witness :
    ((RepoClient.mk (.ok ()) (.error ⟨3⟩) (.ok ⟨1⟩)).cloneResult = .error ⟨3⟩) ∧
    ((RepoState.mk [] [] 0 ⟨1⟩ ⟨[]⟩).pull
        (RepoClient.mk (.ok ()) (.error ⟨3⟩) (.ok ⟨1⟩))).1.hash = ⟨1⟩ ∧
    ((RepoState.mk [] [] 0 ⟨1⟩ ⟨[]⟩).pull
        (RepoClient.mk (.ok ()) (.error ⟨3⟩) (.ok ⟨1⟩))).1.tree = ⟨[]⟩ ∧
    ((RepoState.mk [] [] 0 ⟨1⟩ ⟨[]⟩).pull
        (RepoClient.mk (.ok ()) (.error ⟨3⟩) (.ok ⟨1⟩))).2.1 = some ⟨3⟩ :=
  ⟨rfl, pull_failure_isolation (RepoClient.mk (.ok ()) (.error ⟨3⟩) (.ok ⟨1⟩))
    (RepoState.mk [] [] 0 ⟨1⟩ ⟨[]⟩) ⟨3⟩ rfl⟩

/-- C2: every operation that installs a snapshot (provisioning, `pull`, and
the timer tick) writes the hash and tree as the pair of a single clone
call: against a client honest for a content-hash function, coherence of the
current state (hash = hash of served tree) is established by provisioning
and preserved by `pull` and by the tick; moreover `pull` and the tick either
leave the pair untouched or install exactly the clone result's pair. -/
theorem snapshot_pairing (hf : Tree → Hash) (c : RepoClient) (cfg : Config)
    (s : RepoState) (hc : c.Honest hf) :
    (∀ s' b, provision c cfg = .ready s' b → s'.Coherent hf) ∧
    (s.Coherent hf → (s.pull c).1.Coherent hf) ∧
    (s.Coherent hf → (s.tick c).1.Coherent hf) ∧
    ((s.pull c).1 = s ∨ c.cloneResult = .ok ((s.pull c).1.hash, (s.pull c).1.tree)) ∧
    ((s.tick c).1 = s ∨ c.cloneResult = .ok ((s.tick c).1.hash, (s.tick c).1.tree)) := by
  refine ⟨?_, ?_, ?_, ?_, ?_⟩
  · intro s' b hp
    unfold provision at hp
    by_cases hu : cfg.url = []
    · rw [if_pos hu] at hp; cases hp
    · rw [if_neg hu] at hp
      cases hnr : c.newRepoResult with
      | error e => rw [hnr] at hp; cases hp
      | ok u =>
        rw [hnr] at hp
        cases hcl : c.cloneResult with
        | error e => rw [hcl] at hp; cases hp
        | ok p =>
          obtain ⟨h, t⟩ := p
          rw [hcl] at hp
          cases hp
          exact hc h t hcl
  · intro hcoh
    cases hcl : c.cloneResult with
    | error e => simpa [RepoState.pull, hcl] using hcoh
    | ok p =>
      obtain ⟨h, t⟩ := p
      simpa [RepoState.pull, RepoState.Coherent, hcl] using hc h t hcl
  · intro hcoh
    cases hres : c.resolveResult with
    | error e => simpa [RepoState.tick, hres] using hcoh
    | ok h =>
      by_cases hh : h = s.hash
      · simpa [RepoState.tick, hres, hh] using hcoh
      · cases hcl : c.cloneResult with
        | error e => simpa [RepoState.tick, hres, hh, hcl] using hcoh
        | ok p =>
          obtain ⟨h', t⟩ := p
          simpa [RepoState.tick, RepoState.Coherent, hres, hh, hcl] using hc h' t hcl
  · cases hcl : c.cloneResult with
    | error e => left; simp [RepoState.pull, hcl]
    | ok p =>
      obtain ⟨h, t⟩ := p
      right; simp [RepoState.pull, hcl]
  · cases hres : c.resolveResult with
    | error e => left; simp [RepoState.tick, hres]
    | ok h =>
      by_cases hh : h = s.hash
      · left; simp [RepoState.tick, hres, hh]
      · cases hcl : c.cloneResult with
        | error e => left; simp [RepoState.tick, hres, hh, hcl]
        | ok p =>
          obtain ⟨h', t⟩ := p
          right; simp [RepoState.tick, hres, hh, hcl]

theorem snapshot_pairing_witness :
    ((RepoClient.mk (.ok ()) (.ok (⟨5⟩, ⟨[(['a'], ['x'])]⟩)) (.ok ⟨5⟩)).Honest
        (fun t => ⟨t.entries.length + 4⟩)) ∧
    (∀ s' b, provision (RepoClient.mk (.ok ()) (.ok (⟨5⟩, ⟨[(['a'], ['x'])]⟩)) (.ok ⟨5⟩))
        (Config.mk ['u'] [] 0) = .ready s' b →
      s'.Coherent (fun t => ⟨t.entries.length + 4⟩)) :=
  ⟨by decide,
   (snapshot_pairing (fun t => ⟨t.entries.length + 4⟩)
      (RepoClient.mk (.ok ()) (.ok (⟨5⟩, ⟨[(['a'], ['x'])]⟩)) (.ok ⟨5⟩))
      (Config.mk ['u'] [] 0) (RepoState.mk [] [] 0 ⟨5⟩ ⟨[(['a'], ['x'])]⟩)
      (by decide)).1⟩

/-- C3: on a timer tick the reference is resolved first (the first client
call is `resolve`); when the resolved hash equals the current hash no clone
happens and the state is unchanged; only when it differs is a clone made,
and a successful clone installs its hash and tree. -/
theorem tick_resolve_first (c : RepoClient) (s : RepoState) (h : Hash)
    (hres : c.resolveResult = .ok h) :
    (h = s.hash → s.tick c = (s, [.resolve])) ∧
    (h ≠ s.hash → GitCall.clone ∈ (s.tick c).2 ∧
      ∀ h' t, c.cloneResult = .ok (h', t) →
        (s.tick c).1.hash = h' ∧ (s.tick c).1.tree = t) ∧
    (s.tick c).2.head? = some .resolve := by
  refine ⟨?_, ?_, ?_⟩
  · intro hh; simp [RepoState.tick, hres, hh]
  · intro hh
    cases hcl : c.cloneResult with
    | error e =>
      refine ⟨by simp [RepoState.tick, hres, hh, hcl], ?_⟩
      intro h' t ht; simp at ht
    | ok p =>
      obtain ⟨h', t⟩ := p
      refine ⟨by simp [RepoState.tick, hres, hh, hcl], ?_⟩
      intro h'' t' ht
      simp only [Except.ok.injEq, Prod.mk.injEq] at ht
      obtain ⟨h1, h2⟩ := ht
      subst h1; subst h2
      simp [RepoState.tick, hres, hh, hcl]
  · by_cases hh : h = s.hash
    · simp [RepoState.tick, hres, hh]
    · cases hcl : c.cloneResult with
      | error e => simp [RepoState.tick, hres, hh, hcl]
      | ok p => obtain ⟨h', t⟩ := p; simp [RepoState.tick, hres, hh, hcl]

theorem tick_resolve_first_witness :
    ((RepoClient.mk (.ok ()) (.ok (⟨2⟩, ⟨[]⟩)) (.ok ⟨1⟩)).resolveResult = .ok ⟨1⟩) ∧
    (⟨1⟩ = (RepoState.mk [] [] 0 ⟨1⟩ ⟨[(['a'], ['x'])]⟩).hash →
      (RepoState.mk [] [] 0 ⟨1⟩ ⟨[(['a'], ['x'])]⟩).tick
        (RepoClient.mk (.ok ()) (.ok (⟨2⟩, ⟨[]⟩)) (.ok ⟨1⟩)) =
        (RepoState.mk [] [] 0 ⟨1⟩ ⟨[(['a'], ['x'])]⟩, [.resolve])) :=
  ⟨rfl, (tick_resolve_first (RepoClient.mk (.ok ()) (.ok (⟨2⟩, ⟨[]⟩)) (.ok ⟨1⟩))
    (RepoState.mk [] [] 0 ⟨1⟩ ⟨[(['a'], ['x'])]⟩) ⟨1⟩ rfl).1⟩

/-- C4 counterexample: in `Repo.pull` the clone does not happen before the
write lock is acquired — the lock is taken first and the clone runs inside
it. -/
theorem pull_clone_before_lock_false :
    ¬ firstBefore Action.callClone Action.lockWrite pullTrace := by decide

/-- C4 amended: in the unconditional refresh path (`pull`) the write lock is
acquired before the clone and held across it (readers are blocked for the
clone's duration there); only the timer loop's clone-and-install path does
the clone before acquiring the write lock, holding it just for the
installation. -/
theorem refresh_lock_ordering :
    firstBefore Action.lockWrite Action.callClone pullTrace ∧
    firstBefore Action.callClone Action.unlockWrite pullTrace ∧
    firstBefore Action.callClone Action.lockWrite tickTrace ∧
    firstBefore Action.lockWrite Action.installSnapshot tickTrace := by decide

/-- C10: `Open` and `Stat` leave every field of the manager unchanged
(hash, tree, URL, reference, refresh period), whether they succeed or
fail. -/
theorem read_ops_frame (s : RepoState) (name : List Char) :
    (s.openFile name).1.hash = s.hash ∧ (s.openFile name).1.tree = s.tree ∧
    (s.openFile name).1.url = s.url ∧ (s.openFile name).1.ref = s.ref ∧
    (s.openFile name).1.refreshPeriod = s.refreshPeriod ∧
    (s.statFile name).1.hash = s.hash ∧ (s.statFile name).1.tree = s.tree ∧
    (s.statFile name).1.url = s.url ∧ (s.statFile name).1.ref = s.ref ∧
    (s.statFile name).1.refreshPeriod = s.refreshPeriod := by
  unfold RepoState.openFile RepoState.statFile
  cases s.tree.openPath name <;> simp

/-- C5: the webhook handler, on a filesystem name that resolves to a gitfs
repo, invokes the unconditional full-clone path `pull` — whose only client
call is one `clone`, never a `resolve` — and returns `pull`'s error as its
own result. -/
theorem webhook_invokes_pull (registry : List (List Char × FSValue))
    (name : List Char) (c : RepoClient) (s : RepoState)
    (hreg : registry.lookup name = some (.repoFS s)) :
    serveHTTP registry name c = .pulled (s.pull c).1 (s.pull c).2.1 ∧
    (s.pull c).2.2 = [GitCall.clone] ∧
    ∀ e, c.cloneResult = .error e →
      serveHTTP registry name c = .pulled s (some e) := by
  refine ⟨?_, ?_, ?_⟩
  · cases hcl : c.cloneResult with
    | error e => simp [serveHTTP, hreg, RepoState.pull, hcl]
    | ok p => obtain ⟨h, t⟩ := p; simp [serveHTTP, hreg, RepoState.pull, hcl]
  · cases hcl : c.cloneResult with
    | error e => simp [RepoState.pull, hcl]
    | ok p => obtain ⟨h, t⟩ := p; simp [RepoState.pull, hcl]
  · intro e he
    simp [serveHTTP, hreg, RepoState.pull, he]

theorem webhook_invokes_pull_witness :
    ([(['f'], FSValue.repoFS sampleState)].lookup ['f'] =
      some (FSValue.repoFS sampleState)) ∧
    (serveHTTP [(['f'], FSValue.repoFS sampleState)] ['f'] cloneFailClient =
      .pulled (sampleState.pull cloneFailClient).1
        (sampleState.pull cloneFailClient).2.1) ∧
    (sampleState.pull cloneFailClient).2.2 = [GitCall.clone] ∧
    (∀ e, cloneFailClient.cloneResult = .error e →
      serveHTTP [(['f'], FSValue.repoFS sampleState)] ['f'] cloneFailClient =
        .pulled sampleState (some e)) :=
  ⟨rfl, webhook_invokes_pull [(['f'], FSValue.repoFS sampleState)] ['f']
    cloneFailClient sampleState rfl⟩

/-- C6 (evaluating the code at the failing input): a registered filesystem
that unwraps to a non-Repo value drives `ServeHTTP` into the nil-receiver
`pull()` call — the not-a-Repo error return is dead because it tests the
shadowed `ok` — instead of returning an error without refreshing. -/
theorem webhook_non_repo_nil_panic :
    serveHTTP [(['x'], FSValue.otherUnwrappable)] ['x'] cloneFailClient =
      .nilPanic := rfl

/-- C7 (evaluating the code at the failing input): provisioning accepts a
negative refresh period: with a nonempty URL and period -1, `Provision`
succeeds and starts the refresh goroutine, whose first act
`time.NewTicker(-1)` panics. -/
theorem provision_accepts_negative_period :
    provision okClient ⟨['u'], [], -1⟩ =
      .ready ⟨['u'], headRef, -1, ⟨5⟩, sampleTree⟩ true ∧
    newTickerPanics (-1) :=
  ⟨by decide, by decide⟩

/-- A loop that has returned processes no further events. -/
theorem runLoop_stopped (evs : List LoopEvent) :
    ∀ s : LoopState, s.running = false → runLoop s evs = s := by
  induction evs with
  | nil => intro s _; rfl
  | cons e rest ih =>
    intro s h
    have hstep : loopStep s e = s := by simp [loopStep, h]
    have hrun : runLoop s (e :: rest) = runLoop (loopStep s e) rest := rfl
    rw [hrun, hstep]
    exact ih s h

/-- The loop stops exactly when a cancellation signal arrives. -/
theorem runLoop_running_iff (evs : List LoopEvent) :
    ∀ s : LoopState, s.running = true →
      ((runLoop s evs).running = false ↔ evs.any LoopEvent.isDone = true) := by
  induction evs with
  | nil => intro s h; simp [runLoop, h]
  | cons e rest ih =>
    intro s h
    cases e with
    | done =>
      have hstep : loopStep s .done =
          { s with running := false, tickerActive := false } := by
        simp [loopStep, h]
      have hrun : runLoop s (.done :: rest) = runLoop (loopStep s .done) rest := rfl
      rw [hrun, hstep, runLoop_stopped rest _ rfl]
      simp [LoopEvent.isDone]
    | tickSig c =>
      have hstep : loopStep s (.tickSig c) =
          { s with repoState := (s.repoState.tick c).1 } := by
        simp [loopStep, h]
      have hrun : runLoop s (.tickSig c :: rest) =
          runLoop (loopStep s (.tickSig c)) rest := rfl
      rw [hrun, hstep, ih { s with repoState := (s.repoState.tick c).1 } h]
      simp [LoopEvent.isDone]

/-- When the loop exits, the ticker has been stopped. -/
theorem runLoop_ticker_stopped (evs : List LoopEvent) :
    ∀ s : LoopState, s.running = true → (runLoop s evs).running = false →
      (runLoop s evs).tickerActive = false := by
  induction evs with
  | nil =>
    intro s h hf
    have hs : s.running = false := hf
    rw [h] at hs
    cases hs
  | cons e rest ih =>
    intro s h hf
    cases e with
    | done =>
      have hstep : loopStep s .done =
          { s with running := false, tickerActive := false } := by
        simp [loopStep, h]
      have hrun : runLoop s (.done :: rest) = runLoop (loopStep s .done) rest := rfl
      rw [hrun, hstep, runLoop_stopped rest _ rfl]
    | tickSig c =>
      have hstep : loopStep s (.tickSig c) =
          { s with repoState := (s.repoState.tick c).1 } := by
        simp [loopStep, h]
      have hrun : runLoop s (.tickSig c :: rest) =
          runLoop (loopStep s (.tickSig c)) rest := rfl
      rw [hrun, hstep] at hf ⊢
      exact ih _ h hf

/-- C8: over every schedule of select arrivals, the refresh loop exits iff a
cancellation signal occurs (refresh failures never terminate it), the ticker
is stopped when it exits, and an error from the resolve step or from the
clone step abandons that tick's work leaving the manager state unchanged. -/
theorem timer_loop_resilient (s : LoopState) (evs : List LoopEvent)
    (hrun : s.running = true) :
    ((runLoop s evs).running = false ↔ evs.any LoopEvent.isDone = true) ∧
    ((runLoop s evs).running = false → (runLoop s evs).tickerActive = false) ∧
    (∀ (c : RepoClient) (st : RepoState) (e : Err),
      c.resolveResult = .error e → st.tick c = (st, [.resolve])) ∧
    (∀ (c : RepoClient) (st : RepoState) (h : Hash) (e : Err),
      c.resolveResult = .ok h → h ≠ st.hash → c.cloneResult = .error e →
      st.tick c = (st, [.resolve, .clone])) := by
  refine ⟨runLoop_running_iff evs s hrun, runLoop_ticker_stopped evs s hrun, ?_, ?_⟩
  · intro c st e he
    simp [RepoState.tick, he]
  · intro c st h e hres hne hcl
    simp [RepoState.tick, hres, hne, hcl]

theorem timer_loop_resilient_witness :
    (LoopState.running ⟨sampleState, true, true⟩ = true) ∧
    ((runLoop ⟨sampleState, true, true⟩
        [.tickSig cloneFailClient, .done]).running = false ↔
      ([LoopEvent.tickSig cloneFailClient, LoopEvent.done].any
        LoopEvent.isDone = true)) ∧
    ((runLoop ⟨sampleState, true, true⟩
        [.tickSig cloneFailClient, .done]).running = false →
      (runLoop ⟨sampleState, true, true⟩
        [.tickSig cloneFailClient, .done]).tickerActive = false) :=
  ⟨rfl,
   (timer_loop_resilient ⟨sampleState, true, true⟩
      [.tickSig cloneFailClient, .done] rfl).1,
   (timer_loop_resilient ⟨sampleState, true, true⟩
      [.tickSig cloneFailClient, .done] rfl).2.1⟩

/-- The Go-style split never produces an empty list of parts. -/
theorem splitOnChar_ne_nil (sep : Char) (l : List Char) :
    splitOnChar sep l ≠ [] := by
  induction l with
  | nil => simp [splitOnChar]
  | cons c cs ih =>
    unfold splitOnChar
    by_cases h : c = sep
    · simp [h]
    · rw [if_neg h]
      cases hs : splitOnChar sep cs with
      | nil => simp
      | cons a t => simp

/-- A one-part split means the separator does not occur and the single part
is the whole input. -/
theorem splitOnChar_one (sep : Char) (l : List Char) :
    ∀ x, splitOnChar sep l = [x] → l = x ∧ sep ∉ x := by
  induction l with
  | nil =>
    intro x h
    simp [splitOnChar] at h
    subst h
    simp
  | cons c cs ih =>
    intro x h
    unfold splitOnChar at h
    by_cases hc : c = sep
    · rw [if_pos hc] at h
      simp only [List.cons.injEq] at h
      exact absurd h.2 (splitOnChar_ne_nil sep cs)
    · rw [if_neg hc] at h
      cases hs : splitOnChar sep cs with
      | nil => exact absurd hs (splitOnChar_ne_nil sep cs)
      | cons y t =>
        rw [hs] at h
        simp only [List.cons.injEq] at h
        obtain ⟨hx, ht⟩ := h
        subst ht
        obtain ⟨hcs, hnot⟩ := ih y hs
        subst hcs
        constructor
        · rw [hx]
        · rw [← hx]
          intro hmem
          rcases List.mem_cons.mp hmem with h1 | h2
          · exact hc h1.symm
          · exact hnot h2

/-- A two-part split decomposes the input around the first separator, and
the first part is separator-free. -/
theorem splitOnChar_two (sep : Char) (l : List Char) :
    ∀ a b, splitOnChar sep l = [a, b] → l = a ++ sep :: b ∧ sep ∉ a := by
  induction l with
  | nil => intro a b h; simp [splitOnChar] at h
  | cons c cs ih =>
    intro a b h
    unfold splitOnChar at h
    by_cases hc : c = sep
    · rw [if_pos hc] at h
      simp only [List.cons.injEq] at h
      obtain ⟨ha, hb⟩ := h
      obtain ⟨hcs, _⟩ := splitOnChar_one sep cs b hb
      subst hcs
      constructor
      · rw [← ha, hc]; rfl
      · rw [← ha]; simp
    · rw [if_neg hc] at h
      cases hs : splitOnChar sep cs with
      | nil => exact absurd hs (splitOnChar_ne_nil sep cs)
      | cons y t =>
        rw [hs] at h
        simp only [List.cons.injEq] at h
        obtain ⟨ha, ht⟩ := h
        rw [ht] at hs
        obtain ⟨hcs, hnot⟩ := ih y b hs
        constructor
        · rw [← ha, hcs]; rfl
        · rw [← ha]
          intro hmem
          rcases List.mem_cons.mp hmem with h1 | h2
          · exact hc h1.symm
          · exact hnot h2

/-- Trimming the `sep :: b` suffix off `a ++ sep :: b` leaves `a`. -/
theorem trimSuffixL_append (a b : List Char) (sep : Char) :
    trimSuffixL (a ++ sep :: b) (sep :: b) = a := by
  unfold trimSuffixL
  have hlen : (a ++ sep :: b).length - (sep :: b).length = a.length := by
    simp
  rw [if_pos]
  · rw [hlen, List.take_left]
  · constructor
    · simp
    · rw [hlen, List.drop_left]

/-- Everything from the first separator on is exactly what `takeWhile`
ignores. -/
theorem takeWhile_append_sep (a b : List Char) (sep : Char) (ha : sep ∉ a) :
    (a ++ sep :: b).takeWhile (fun c => c != sep) = a := by
  induction a with
  | nil => simp [List.takeWhile]
  | cons x xs ih =>
    have hx : x ≠ sep := by
      intro hh
      exact ha (hh ▸ List.mem_cons_self x xs)
    have hxs : sep ∉ xs := fun hh => ha (List.mem_cons_of_mem x hh)
    simp only [List.cons_append, List.takeWhile]
    rw [show (x != sep) = true by simpa using hx]
    show x :: (xs ++ sep :: b).takeWhile (fun c => c != sep) = x :: xs
    rw [ih hxs]

/-- The subdirective loop never writes the URL field. -/
theorem processSubs_url (subs : List Subdirective) :
    ∀ r cfg, processSubs r subs = .ok cfg → cfg.url = r.url := by
  induction subs with
  | nil =>
    intro r cfg h
    simp [processSubs] at h
    subst h
    rfl
  | cons sd rest ih =>
    intro r cfg h
    cases sd with
    | refArg v => exact ih { r with ref := v } cfg h
    | refreshPeriodArg p =>
      cases p with
      | error e => simp [processSubs] at h
      | ok d => exact ih { r with refreshPeriod := d } cfg h
    | unknown => simp [processSubs] at h

/-- Without a `ref` subdirective the loop never writes the reference. -/
theorem processSubs_ref (subs : List Subdirective)
    (hnr : ∀ v, Subdirective.refArg v ∉ subs) :
    ∀ r cfg, processSubs r subs = .ok cfg → cfg.ref = r.ref := by
  induction subs with
  | nil =>
    intro r cfg h
    simp [processSubs] at h
    subst h
    rfl
  | cons sd rest ih =>
    intro r cfg h
    have hnr' : ∀ v, Subdirective.refArg v ∉ rest := fun v hv =>
      hnr v (List.mem_cons_of_mem sd hv)
    cases sd with
    | refArg v => exact absurd (List.mem_cons_self _ rest) (hnr v)
    | refreshPeriodArg p =>
      cases p with
      | error e => simp [processSubs] at h
      | ok d => exact ih hnr' { r with refreshPeriod := d } cfg h
    | unknown => simp [processSubs] at h

/-- C9: after a successful Caddyfile unmarshal whose URL path contains
exactly one `@` (two split parts), the stored URL is the input URL with the
`@` and everything after it removed from the path, the reference field stays
empty — the text after the `@` is discarded — and `Provision`'s defaulting
would therefore turn it into `"HEAD"` unless a `ref` subdirective is
given. -/
theorem unmarshal_at_path (u : URLModel) (subs : List Subdirective)
    (cfg : Config)
    (hnr : ∀ v, Subdirective.refArg v ∉ subs)
    (h2 : (splitOnChar '@' u.path).length = 2)
    (hok : unmarshalCaddyfile u subs ⟨[], [], 0⟩ = .ok cfg) :
    cfg.url = u.pre ++ u.path.takeWhile (fun c => c != '@') ∧
    cfg.ref = [] ∧ effectiveRef cfg.ref = headRef := by
  obtain ⟨a, b, hs⟩ := List.length_eq_two.mp h2
  obtain ⟨hdecomp, hnotin⟩ := splitOnChar_two '@' u.path a b hs
  unfold unmarshalCaddyfile at hok
  rw [hs] at hok
  have hurl := processSubs_url subs _ cfg hok
  have href := processSubs_ref subs hnr _ cfg hok
  refine ⟨?_, ?_, ?_⟩
  · rw [hurl]
    show u.pre ++ trimSuffixL u.path ('@' :: b) = _
    congr 1
    rw [hdecomp, trimSuffixL_append, takeWhile_append_sep a b '@' hnotin]
  · rw [href]
  · rw [href]
    rfl

theorem unmarshal_at_path_witness :
    (∀ v, Subdirective.refArg v ∉ ([] : List Subdirective)) ∧
    (splitOnChar '@' "/repo@v1".toList).length = 2 ∧
    unmarshalCaddyfile ⟨"https://h".toList, "/repo@v1".toList⟩ []
      ⟨[], [], 0⟩ = .ok ⟨"https://h/repo".toList, [], 0⟩ ∧
    (Config.url ⟨"https://h/repo".toList, [], 0⟩ =
      "https://h".toList ++ "/repo@v1".toList.takeWhile (fun c => c != '@') ∧
    Config.ref ⟨"https://h/repo".toList, [], 0⟩ = [] ∧
    effectiveRef (Config.ref ⟨"https://h/repo".toList, [], 0⟩) = headRef) :=
  And.intro (fun v hv => by cases hv)
    (And.intro (by decide)
      (And.intro (by decide)
        (unmarshal_at_path ⟨"https://h".toList, "/repo@v1".toList⟩ []
          ⟨"https://h/repo".toList, [], 0⟩ (fun v hv => by cases hv)
          (by decide) (by decide))))

end GitFS
